import Mathlib

/-!
Verification of the contact-book core in `bot.py`: validated fields
(`Phone`, `Birthday`), `Record` phone operations, the `AddressBook`
mapping, and the upcoming-birthday query.  Python's `datetime.date` is
embedded as a `(year, month, day)` triple with the proleptic-Gregorian
ordinal; `datetime.strptime` with the fixed format `"%d.%m.%Y"` is
embedded following CPython's `_strptime` regular expressions for
`%d`, `%m` and `%Y`.
-/

deriving instance DecidableEq for Except

namespace Bot

/-- Gregorian leap-year rule used by Python's `datetime`:
divisible by 4, except centuries not divisible by 400. -/
def isLeap (y : Nat) : Bool :=
  y % 4 == 0 && (y % 100 != 0 || y % 400 == 0)

/-- Number of days of month `m` (1-12) in year `y`. -/
def daysInMonth (y m : Nat) : Nat :=
  if m == 2 then (if isLeap y then 29 else 28)
  else if m == 4 || m == 6 || m == 9 || m == 11 then 30
  else 31

/-- A calendar date as Python's `datetime.date` stores it. -/
structure Date where
  year : Nat
  month : Nat
  day : Nat
deriving Repr, DecidableEq

/-- The constructor check of `datetime.date`: year in `MINYEAR..MAXYEAR`
(1..9999), month in 1..12, day in 1..days-in-month. -/
def Date.valid (d : Date) : Bool :=
  1 ≤ d.year && d.year ≤ 9999 && 1 ≤ d.month && d.month ≤ 12 &&
  1 ≤ d.day && d.day ≤ daysInMonth d.year d.month

/-- Days contributed by the full months before month `m` of year `y`. -/
def daysBeforeMonth (y m : Nat) : Nat :=
  (List.range (m - 1)).foldl (fun a i => a + daysInMonth y (i + 1)) 0

/-- Python's `date.toordinal`: day 1 is 0001-01-01. -/
def toOrdinal (d : Date) : Nat :=
  365 * (d.year - 1) + (d.year - 1) / 4 - (d.year - 1) / 100 + (d.year - 1) / 400
    + daysBeforeMonth d.year d.month + d.day

/-- Python's `date.weekday`: Monday = 0 .. Sunday = 6.
Ordinal 1 (0001-01-01) is a Monday. -/
def weekday (d : Date) : Nat :=
  (toOrdinal d + 6) % 7

/-- Python's `date.__lt__`: lexicographic on (year, month, day). -/
def Date.before (a b : Date) : Bool :=
  a.year < b.year ||
    (a.year == b.year &&
      (a.month < b.month || (a.month == b.month && a.day < b.day)))

/-- The calendar successor of a date (`d + timedelta(days=1)`). -/
def nextDay (d : Date) : Date :=
  if d.day < daysInMonth d.year d.month then ⟨d.year, d.month, d.day + 1⟩
  else if d.month < 12 then ⟨d.year, d.month + 1, 1⟩
  else ⟨d.year + 1, 1, 1⟩

/-- `d + timedelta(days=n)` for `n ≥ 0`. -/
def addDays : Date → Nat → Date
  | d, 0 => d
  | d, n + 1 => addDays (nextDay d) n

/-- Python's `date.replace(year=y)`: rebuilds the date in year `y`,
re-running the constructor check (so Feb 29 in a non-leap year raises). -/
def replaceYear (d : Date) (y : Nat) : Except String Date :=
  if (Date.mk y d.month d.day).valid then .ok ⟨y, d.month, d.day⟩
  else .error "day is out of range for month"

/-- Numeric value of a list of decimal digit characters. -/
def natOfDigits (l : List Char) : Nat :=
  l.foldl (fun a c => 10 * a + (c.toNat - 48)) 0

/-- Splits off the maximal run of leading decimal digits. -/
def splitDigits : List Char → List Char × List Char
  | [] => ([], [])
  | c :: cs =>
    if c.isDigit then
      let p := splitDigits cs
      (c :: p.1, p.2)
    else ([], c :: cs)

/-- The part of `datetime.strptime(s, "%d.%m.%Y")` after the day
field: a literal dot, then `%m` (one or two digits valuing 1..12, per
CPython's `(?P<m>1[0-2]|0[1-9]|[1-9])`), a literal dot, then `%Y`
(exactly four digits); the whole input must be consumed and the
numbers must form a valid `datetime.date`. -/
def parseTail (dayVal : Nat) (r1 : List Char) : Option Date :=
  match r1 with
  | '.' :: r2 =>
    match splitDigits r2 with
    | (m, '.' :: r4) =>
      if (splitDigits r4).2.isEmpty
          && (m.length == 1 || m.length == 2)
          && 1 ≤ natOfDigits m && natOfDigits m ≤ 12
          && (splitDigits r4).1.length == 4 then
        if (Date.mk (natOfDigits (splitDigits r4).1) (natOfDigits m) dayVal).valid then
          some ⟨natOfDigits (splitDigits r4).1, natOfDigits m, dayVal⟩
        else none
      else none
    | _ => none
  | _ => none

/-- `datetime.strptime(s, "%d.%m.%Y")`.  CPython's `%d` regular
expression is `(?P<d>3[01]|[12]\d|0[1-9]|[1-9]| [1-9])`: the day is
one or two digits valuing 1..31, or a space followed by a single
nonzero digit (the space-padded form); the rest is `parseTail`. -/
def strptime_dmy (s : String) : Option Date :=
  if (splitDigits s.data).1.isEmpty then
    match (splitDigits s.data).2 with
    | ' ' :: c :: rest =>
      if c.isDigit && !(c == '0') then parseTail (c.toNat - 48) rest else none
    | _ => none
  else
    if ((splitDigits s.data).1.length == 1 || (splitDigits s.data).1.length == 2)
        && 1 ≤ natOfDigits (splitDigits s.data).1
        && natOfDigits (splitDigits s.data).1 ≤ 31 then
      parseTail (natOfDigits (splitDigits s.data).1) (splitDigits s.data).2
    else none

/-- The codepoint ranges (inclusive) on which CPython's per-character
digit test is true: the Unicode decimal digits of every script plus
the characters with numeric-type Digit (superscripts, subscripts,
circled digits, fullwidth digits, ...), as tabulated by the
interpreter's `unicodedata`. -/
def pyDigitRanges : List (Nat × Nat) :=
  [(48, 57), (178, 179), (185, 185), (1632, 1641), (1776, 1785), (1984, 1993),
   (2406, 2415), (2534, 2543), (2662, 2671), (2790, 2799), (2918, 2927),
   (3046, 3055), (3174, 3183), (3302, 3311), (3430, 3439), (3558, 3567),
   (3664, 3673), (3792, 3801), (3872, 3881), (4160, 4169), (4240, 4249),
   (4969, 4977), (6112, 6121), (6160, 6169), (6470, 6479), (6608, 6618),
   (6784, 6793), (6800, 6809), (6992, 7001), (7088, 7097), (7232, 7241),
   (7248, 7257), (8304, 8304), (8308, 8313), (8320, 8329), (9312, 9320),
   (9332, 9340), (9352, 9360), (9450, 9450), (9461, 9469), (9471, 9471),
   (10102, 10110), (10112, 10120), (10122, 10130), (42528, 42537),
   (43216, 43225), (43264, 43273), (43472, 43481), (43504, 43513),
   (43600, 43609), (44016, 44025), (65296, 65305), (66720, 66729),
   (68160, 68163), (68912, 68921), (69216, 69224), (69714, 69722),
   (69734, 69743), (69872, 69881), (69942, 69951), (70096, 70105),
   (70384, 70393), (70736, 70745), (70864, 70873), (71248, 71257),
   (71360, 71369), (71472, 71481), (71904, 71913), (72016, 72025),
   (72784, 72793), (73040, 73049), (73120, 73129), (92768, 92777),
   (92864, 92873), (93008, 93017), (120782, 120831), (123200, 123209),
   (123632, 123641), (125264, 125273), (127232, 127242), (130032, 130041)]

/-- The per-character test behind CPython's `str.isdigit`: true
exactly on `pyDigitRanges`.  A strict superset of the decimal digits
`0`-`9`. -/
def pyIsDigit (c : Char) : Bool :=
  pyDigitRanges.any (fun p => p.1 ≤ c.toNat && c.toNat ≤ p.2)

/-- Python's `str.isdigit`: a nonempty string all of whose characters
pass the Unicode digit test. -/
def str_isdigit (s : String) : Bool :=
  !s.data.isEmpty && s.data.all pyIsDigit

namespace Phone

/-- `Phone.validate`: `value.isdigit() and len(value) == 10`. -/
def validate (value : String) : Bool :=
  str_isdigit value && value.length == 10

end Phone

/-- The errors the core raises, split by the spec's taxonomy:
`validation` for malformed phone/birthday input, `notFound` for a
missing record, phone or key.  In the source both are `ValueError`
(or `KeyError` for the book), distinguished by message. -/
inductive Err where
  | validation (msg : String)
  | notFound (msg : String)
deriving Repr, DecidableEq

/-- The `Phone` field constructor: validates, else raises. -/
def mkPhone (s : String) : Except Err String :=
  if Phone.validate s then .ok s
  else .error (.validation "Phone number must contain exactly 10 digits")

/-- The `Birthday` field constructor: `strptime(value, "%d.%m.%Y")`
must succeed, else raises; stores the raw string. -/
def mkBirthday (s : String) : Except Err String :=
  match strptime_dmy s with
  | some _ => .ok s
  | none => .error (.validation "Invalid date format. Use DD.MM.YYYY")

/-- A `Record`: a name, an ordered list of validated phone values,
and an optional birthday string. -/
structure Record where
  name : String
  phones : List String
  birthday : Option String
deriving Repr, DecidableEq

/-- `Record.find_phone`: the first stored phone whose value equals
`phone`, or `None`. -/
def find_phone (r : Record) (phone : String) : Option String :=
  r.phones.find? (fun p => p == phone)

/-- `list.remove`: drop the first occurrence of `v`. -/
def removeFirst : List String → String → List String
  | [], _ => []
  | x :: xs, v => if x == v then xs else x :: removeFirst xs v

/-- `Record.add_phone`: validate, then append.  Returns the error (if
any raise occurred) together with the record as the method leaves it. -/
def add_phone (r : Record) (phone : String) : Option Err × Record :=
  match mkPhone phone with
  | .ok p => (none, { r with phones := r.phones ++ [p] })
  | .error e => (some e, r)

/-- `Record.remove_phone`: remove the first matching phone, else raise. -/
def remove_phone (r : Record) (phone : String) : Option Err × Record :=
  match find_phone r phone with
  | some p => (none, { r with phones := removeFirst r.phones p })
  | none => (some (.notFound ("Phone " ++ phone ++ " not found")), r)

/-- `Record.edit_phone`: raise if `old_phone` is absent; raise if
`new_phone` fails `Phone.validate`; otherwise remove the old entry and
append the new one at the end. -/
def edit_phone (r : Record) (old_phone new_phone : String) : Option Err × Record :=
  match find_phone r old_phone with
  | none => (some (.notFound ("Phone " ++ old_phone ++ " not found")), r)
  | some p =>
    if Phone.validate new_phone then
      (none, { r with phones := removeFirst r.phones p ++ [new_phone] })
    else
      (some (.validation "New phone number must contain exactly 10 digits"), r)

/-- `Record.add_birthday`: validate via the `Birthday` constructor,
then replace the stored birthday. -/
def add_birthday (r : Record) (b : String) : Option Err × Record :=
  match mkBirthday b with
  | .ok v => (none, { r with birthday := some v })
  | .error e => (some e, r)

/-- An `AddressBook`'s `data` dict: insertion-ordered association list
with unique keys (Python `dict` semantics). -/
abbrev AddressBook := List (String × Record)

/-- `dict.__setitem__`: update in place if the key exists (keeping its
position), else append. -/
def dictSet : AddressBook → String → Record → AddressBook
  | [], k, v => [(k, v)]
  | (k', v') :: rest, k, v =>
    if k' == k then (k, v) :: rest else (k', v') :: dictSet rest k v

/-- `dict.get`: first (only) value stored under `k`. -/
def dictGet : AddressBook → String → Option Record
  | [], _ => none
  | (k', v') :: rest, k => if k' == k then some v' else dictGet rest k

/-- `del dict[k]`: drop the entry under `k`. -/
def dictDel : AddressBook → String → AddressBook
  | [], _ => []
  | (k', v') :: rest, k => if k' == k then rest else (k', v') :: dictDel rest k

/-- `AddressBook.add_record`: `self.data[record.name.value] = record`.
Never raises, hence the error component is always `none`. -/
def add_record (book : AddressBook) (r : Record) : Option Err × AddressBook :=
  (none, dictSet book r.name r)

/-- `AddressBook.find`: `self.data.get(name)`. -/
def find (book : AddressBook) (name : String) : Option Record :=
  dictGet book name

/-- `AddressBook.delete`: delete the entry if present, else raise
`KeyError`. -/
def delete (book : AddressBook) (name : String) : Option Err × AddressBook :=
  if (dictGet book name).isSome then (none, dictDel book name)
  else (some (.notFound ("Contact " ++ name ++ " not found")), book)

/-- `strftime("%d.%m.%Y")`: zero-pad to two digits. -/
def pad2 (n : Nat) : String :=
  if n < 10 then "0" ++ toString n else toString n

/-- `strftime("%d.%m.%Y")`: zero-pad the year to four digits. -/
def pad4 (n : Nat) : String :=
  if n < 10 then "000" ++ toString n
  else if n < 100 then "00" ++ toString n
  else if n < 1000 then "0" ++ toString n
  else toString n

/-- `d.strftime("%d.%m.%Y")`. -/
def formatDate (d : Date) : String :=
  pad2 d.day ++ "." ++ pad2 d.month ++ "." ++ pad4 d.year

/-- The body of the `get_upcoming_birthdays` loop for one record, with
`today` injected: parse the stored birthday, rebuild it in `today`'s
year (in `today`'s year + 1 if that candidate is strictly before
`today`), and if the day difference lies in `[0, 7]` emit the name and
the congratulation date (the candidate shifted off Saturday by 2 days
and off Sunday by 1 day), formatted `"%d.%m.%Y"`.  An `error` result
is a `ValueError` escaping the loop body. -/
def processRecord (today : Date) (r : Record) : Except String (Option (String × String)) :=
  match r.birthday with
  | none => .ok none
  | some bstr =>
    match strptime_dmy bstr with
    | none => .error "Invalid stored birthday"
    | some bd =>
      match replaceYear bd today.year with
      | .error e => .error e
      | .ok c0 =>
        match (if Date.before c0 today then replaceYear bd (today.year + 1) else .ok c0) with
        | .error e => .error e
        | .ok cand =>
          if 0 ≤ (toOrdinal cand : Int) - (toOrdinal today : Int) ∧
              (toOrdinal cand : Int) - (toOrdinal today : Int) ≤ 7 then
            .ok (some (r.name,
              formatDate (if weekday cand == 5 then addDays cand 2
                else if weekday cand == 6 then addDays cand 1
                else cand)))
          else .ok none

/-- `AddressBook.get_upcoming_birthdays` with `today` injected:
iterate over the records in book order, collecting the emitted
entries; a `ValueError` raised for any record aborts the whole call. -/
def get_upcoming_birthdays (book : AddressBook) (today : Date) :
    Except String (List (String × String)) :=
  match book with
  | [] => .ok []
  | (_, r) :: rest =>
    match processRecord today r with
    | .error e => .error e
    | .ok none => get_upcoming_birthdays rest today
    | .ok (some entry) =>
      match get_upcoming_birthdays rest today with
      | .error e => .error e
      | .ok l => .ok (entry :: l)

/-- The spec's reading of the birthday pattern, for comparison with the
source's parser: exactly a 2-digit day, a 2-digit month and a 4-digit
year separated by dots, naming a real calendar date. -/
def specBirthdayFormat (s : String) : Bool :=
  match s.data with
  | [d1, d2, '.', m1, m2, '.', y1, y2, y3, y4] =>
    [d1, d2, m1, m2, y1, y2, y3, y4].all Char.isDigit &&
    Date.valid ⟨natOfDigits [y1, y2, y3, y4], natOfDigits [m1, m2], natOfDigits [d1, d2]⟩
  | _ => false

/-- The candidate date of the upcoming-birthday algorithm as the spec
describes it: the birthday's month/day placed in `today`'s year,
rebuilt in `today`'s year + 1 when that first candidate is strictly
before `today`. -/
def candidate (today bd : Date) : Date :=
  if Date.before ⟨today.year, bd.month, bd.day⟩ today then ⟨today.year + 1, bd.month, bd.day⟩
  else ⟨today.year, bd.month, bd.day⟩

/-- A mutating operation on the book's mapping: `add_record` or
`delete`. -/
inductive BookOp where
  | addRec (r : Record)
  | delRec (name : String)
deriving Repr, DecidableEq

/-- Runs one operation, keeping the state it leaves behind (a failed
`delete` leaves the book as it was). -/
def applyOp (book : AddressBook) : BookOp → AddressBook
  | .addRec r => (add_record book r).2
  | .delRec n => (delete book n).2

/-- Runs a sequence of operations from left to right. -/
def applyOps (book : AddressBook) (ops : List BookOp) : AddressBook :=
  ops.foldl applyOp book

end Bot

namespace Bot

example : strptime_dmy "02.01.2000" = some ⟨2000, 1, 2⟩ := by decide
example : strptime_dmy "31.02.2020" = none := by decide
example : strptime_dmy "2020.01.01" = none := by decide
example : strptime_dmy "1.01.2020" = some ⟨2020, 1, 1⟩ := by decide
example : strptime_dmy " 1.01.2020" = some ⟨2020, 1, 1⟩ := by decide
example : strptime_dmy " 10.01.2020" = none := by decide
example : strptime_dmy " 0.01.2020" = none := by decide
example : strptime_dmy "  1.01.2020" = none := by decide
example : weekday ⟨2024, 6, 15⟩ = 5 := by decide
example : toOrdinal ⟨2025, 1, 2⟩ - toOrdinal ⟨2024, 12, 31⟩ = 2 := by decide
example : Phone.validate "1234567890" = true := by decide
example : Phone.validate "123456789a" = false := by decide
example : Phone.validate "²²²²²²²²²²" = true := by decide
example : Phone.validate "０１２３４５６７８９" = true := by decide

example :
    processRecord ⟨2024, 12, 31⟩ ⟨"A", [], some "02.01.2000"⟩ =
      .ok (some ("A", "02.01.2025")) := by decide

example :
    processRecord ⟨2024, 6, 10⟩ ⟨"A", [], some "15.06.2024"⟩ =
      .ok (some ("A", "17.06.2024")) := by decide

example :
    processRecord ⟨2024, 6, 10⟩ ⟨"A", [], some "12.06.2024"⟩ =
      .ok (some ("A", "12.06.2024")) := by decide

example :
    get_upcoming_birthdays [("A", ⟨"A", [], some "29.02.2000"⟩)] ⟨2023, 6, 1⟩ =
      .error "day is out of range for month" := by decide

example :
    get_upcoming_birthdays [("A", ⟨"A", [], some "15.06.2000"⟩)] ⟨2024, 6, 8⟩ =
      .ok [("A", "17.06.2024")] := by decide

lemma digit_toNat_le (c : Char) (h : c.isDigit = true) : c.toNat - 48 ≤ 9 := by
  unfold Char.isDigit at h
  simp only [Bool.and_eq_true, decide_eq_true_eq] at h
  have : c.toNat ≤ 57 := h.2
  omega

lemma natOfDigits_foldl_lt (l : List Char) (a : Nat)
    (h : ∀ x ∈ l, x.isDigit = true) :
    List.foldl (fun a c => 10 * a + (c.toNat - 48)) a l < (a + 1) * 10 ^ l.length := by
  induction l generalizing a with
  | nil => simp
  | cons c l ih =>
    have hc : c.toNat - 48 ≤ 9 := digit_toNat_le c (h c (by simp))
    have hrec := ih (10 * a + (c.toNat - 48)) (fun x hx => h x (by simp [hx]))
    have hmul : (10 * a + (c.toNat - 48) + 1) * 10 ^ l.length ≤ (a + 1) * 10 ^ (l.length + 1) := by
      have : 10 * a + (c.toNat - 48) + 1 ≤ (a + 1) * 10 := by omega
      calc (10 * a + (c.toNat - 48) + 1) * 10 ^ l.length
          ≤ (a + 1) * 10 * 10 ^ l.length := Nat.mul_le_mul_right _ this
        _ = (a + 1) * 10 ^ (l.length + 1) := by ring
    simp only [List.foldl_cons, List.length_cons]
    exact lt_of_lt_of_le hrec hmul

lemma natOfDigits_lt (l : List Char) (h : ∀ x ∈ l, x.isDigit = true) :
    natOfDigits l < 10 ^ l.length :=
  by simpa using natOfDigits_foldl_lt l 0 h

lemma daysInMonth_le_31 (y m : Nat) : daysInMonth y m ≤ 31 := by
  unfold daysInMonth
  split
  · split <;> omega
  · split <;> omega

lemma splitDigits_eq_append (l : List Char) :
    l = (splitDigits l).1 ++ (splitDigits l).2 := by
  induction l with
  | nil => rfl
  | cons c cs ih =>
    unfold splitDigits
    by_cases hc : c.isDigit = true
    · simpa [hc] using congrArg (c :: ·) ih
    · simp [hc]

lemma splitDigits_fst_digits (l : List Char) :
    ∀ x ∈ (splitDigits l).1, x.isDigit = true := by
  induction l with
  | nil => simp [splitDigits]
  | cons c cs ih =>
    unfold splitDigits
    by_cases hc : c.isDigit = true
    · intro x hx
      simp only [hc, if_pos] at hx
      rcases List.mem_cons.mp hx with h | h
      · simpa [h] using hc
      · exact ih x h
    · simp [hc]

lemma splitDigits_append_stop (d : List Char) (c : Char) (rest : List Char)
    (hd : ∀ x ∈ d, x.isDigit = true) (hc : c.isDigit = false) :
    splitDigits (d ++ c :: rest) = (d, c :: rest) := by
  induction d with
  | nil => simp [splitDigits, hc]
  | cons a as ih =>
    have ha : a.isDigit = true := hd a (by simp)
    have := ih (fun x hx => hd x (by simp [hx]))
    simp [splitDigits, ha, this]

lemma splitDigits_all (l : List Char) (h : ∀ x ∈ l, x.isDigit = true) :
    splitDigits l = (l, []) := by
  induction l with
  | nil => rfl
  | cons c cs ih =>
    have hc : c.isDigit = true := h c (by simp)
    have := ih (fun x hx => h x (by simp [hx]))
    simp [splitDigits, hc, this]

lemma splitDigits_cons_not_digit (c : Char) (cs : List Char) (hc : c.isDigit = false) :
    splitDigits (c :: cs) = ([], c :: cs) := by
  simp [splitDigits, hc]

lemma decimal_isDigit_pyIsDigit (c : Char) (h : c.isDigit = true) : pyIsDigit c = true := by
  unfold Char.isDigit at h
  simp only [Bool.and_eq_true, decide_eq_true_eq] at h
  unfold pyIsDigit pyDigitRanges
  rw [List.any_eq_true]
  refine ⟨(48, 57), List.mem_cons_self _ _, ?_⟩
  simp only [Bool.and_eq_true, decide_eq_true_eq]
  exact h

lemma one_le_digit_val (c : Char) (hc : c.isDigit = true) (h0 : (c == '0') = false) :
    1 ≤ c.toNat - 48 := by
  unfold Char.isDigit at hc
  simp only [Bool.and_eq_true, decide_eq_true_eq] at hc
  have h48 : c.toNat ≠ 48 := by
    intro habs
    have hofn := Char.ofNat_toNat c
    rw [habs] at hofn
    rw [← hofn] at h0
    simp at h0
  have hlo : 48 ≤ c.toNat := hc.1
  omega

/-- C5 counterexample: a string of ten superscript-two characters is
accepted by the `Phone` constructor — CPython's `isdigit` is true on
superscript digits and the length is 10 — although its characters are
not decimal digits, so "succeeds iff 10 characters, all decimal
digits" fails in the only-if direction. -/
theorem phone_accepts_superscript_digits :
    mkPhone "²²²²²²²²²²" = .ok "²²²²²²²²²²" ∧
    ("²²²²²²²²²²" : String).length = 10 ∧
    ¬(∀ c ∈ ("²²²²²²²²²²" : String).data, c.isDigit = true) := by
  refine ⟨by decide, by decide, by decide⟩

/-- C5 amended: the `Phone` constructor succeeds if and only if the
string has exactly 10 characters, each passing CPython's Unicode
digit test (`str.isdigit`), a strict superset of the decimal digits:
every decimal-digit character passes the test, but so do superscript
and fullwidth digits; anything else fails with a `ValidationError`. -/
theorem phone_ok_iff_ten_python_digits (s : String) :
    ((∃ v, mkPhone s = .ok v) ↔
      (s.length = 10 ∧ ∀ c ∈ s.data, pyIsDigit c = true)) ∧
    (∀ c : Char, c.isDigit = true → pyIsDigit c = true) := by
  have hlen : s.length = s.data.length := rfl
  refine ⟨?_, decimal_isDigit_pyIsDigit⟩
  constructor
  · rintro ⟨v, hv⟩
    unfold mkPhone at hv
    split at hv
    · next h =>
      unfold Phone.validate str_isdigit at h
      simp only [Bool.and_eq_true, beq_iff_eq, List.all_eq_true, Bool.not_eq_true',
        List.isEmpty_iff] at h
      exact ⟨h.2, fun c hc => h.1.2 c hc⟩
    · exact absurd hv (by simp)
  · rintro ⟨h10, hdig⟩
    refine ⟨s, ?_⟩
    have hval : Phone.validate s = true := by
      unfold Phone.validate str_isdigit
      simp only [Bool.and_eq_true, beq_iff_eq, List.all_eq_true, Bool.not_eq_true',
        List.isEmpty_iff]
      have hne : s.data ≠ [] := by
        intro hnil
        rw [hlen, hnil] at h10
        simp at h10
      exact ⟨⟨by simpa using hne, hdig⟩, h10⟩
    unfold mkPhone
    rw [if_pos hval]

/-- C5 amended witness: "1234567890" is accepted. -/
theorem phone_ok_iff_ten_python_digits_witness :
    ∃ v, mkPhone "1234567890" = .ok v :=
  (phone_ok_iff_ten_python_digits "1234567890").1.mpr (by decide)

/-- C10: with `today = 08.06.2024` and a birthday on 15.06 (a
Saturday 7 days ahead, so inside the `[0, 7]` window), the query
includes the record but emits `17.06.2024`, which is 9 days after
`today`: the weekend shift happens after the window check, so the
emitted date is not itself constrained to the window. -/
theorem shifted_date_can_leave_window :
    get_upcoming_birthdays [("A", ⟨"A", [], some "15.06.2000"⟩)] ⟨2024, 6, 8⟩ =
        .ok [("A", "17.06.2024")] ∧
    weekday ⟨2024, 6, 15⟩ = 5 ∧
    (toOrdinal ⟨2024, 6, 15⟩ : Int) - toOrdinal ⟨2024, 6, 8⟩ = 7 ∧
    strptime_dmy "17.06.2024" = some ⟨2024, 6, 17⟩ ∧
    (toOrdinal ⟨2024, 6, 17⟩ : Int) - toOrdinal ⟨2024, 6, 8⟩ = 9 := by
  refine ⟨by decide, by decide, by decide, by decide, by decide⟩

/-- C3 counterexample: with `today = 01.06.2023` (2023 is not a leap
year) and a stored birthday `29.02.2000`, `get_upcoming_birthdays`
does not resolve the candidate to a policy date: `date.replace`
raises `ValueError` and the whole call fails. -/
theorem feb29_counterexample :
    get_upcoming_birthdays [("A", ⟨"A", [], some "29.02.2000"⟩)] ⟨2023, 6, 1⟩ =
        .error "day is out of range for month" ∧
    isLeap 2023 = false ∧ isLeap 2000 = true ∧
    strptime_dmy "29.02.2000" = some ⟨2000, 2, 29⟩ := by
  refine ⟨by decide, by decide, by decide, by decide⟩

/-- C6 counterexample: `"1.01.2020"` does not match the spec's fixed
`DD.MM.YYYY` pattern (its day has a single digit), yet the `Birthday`
constructor accepts it: CPython's `%d` matches one or two digits. -/
theorem birthday_accepts_single_digit_day :
    mkBirthday "1.01.2020" = .ok "1.01.2020" ∧
    specBirthdayFormat "1.01.2020" = false := by
  refine ⟨by decide, by decide⟩

lemma parseTail_some (dayVal : Nat) (r1 : List Char) (dt : Date)
    (h : parseTail dayVal r1 = some dt) :
    ∃ m y : List Char, r1 = '.' :: (m ++ '.' :: y) ∧
      (∀ c ∈ m, c.isDigit = true) ∧ (∀ c ∈ y, c.isDigit = true) ∧
      (m.length = 1 ∨ m.length = 2) ∧ y.length = 4 ∧
      1 ≤ natOfDigits m ∧ natOfDigits m ≤ 12 ∧ 1 ≤ natOfDigits y ∧
      1 ≤ dayVal ∧ dayVal ≤ daysInMonth (natOfDigits y) (natOfDigits m) ∧
      dt = ⟨natOfDigits y, natOfDigits m, dayVal⟩ := by
  unfold parseTail at h
  split at h
  · next r2 =>
    split at h
    · next m r4 hB =>
      split at h
      · next hcond =>
        split at h
        · next hvalid =>
          simp only [Bool.and_eq_true, beq_iff_eq, Bool.or_eq_true,
            decide_eq_true_eq, List.isEmpty_iff] at hcond
          unfold Date.valid at hvalid
          simp only [Bool.and_eq_true, decide_eq_true_eq] at hvalid
          simp only [Option.some.injEq] at h
          refine ⟨m, (splitDigits r4).1, ?_, ?_, splitDigits_fst_digits _,
            hcond.1.1.1.2, hcond.2, hcond.1.1.2, hcond.1.2,
            hvalid.1.1.1.1.1, hvalid.1.2, hvalid.2, h.symm⟩
          · have e2 := splitDigits_eq_append r2
            have e4 := splitDigits_eq_append r4
            rw [hB] at e2
            rw [hcond.1.1.1.1] at e4
            simp only [List.append_nil] at e4
            rw [e2, ← e4]
          · have := splitDigits_fst_digits r2
            rw [hB] at this
            exact this
        · exact absurd h (by simp)
      · exact absurd h (by simp)
    · exact absurd h (by simp)
  · exact absurd h (by simp)

lemma parseTail_complete (dayVal : Nat) (m y : List Char)
    (hm : ∀ c ∈ m, c.isDigit = true) (hy : ∀ c ∈ y, c.isDigit = true)
    (hml : m.length = 1 ∨ m.length = 2) (hyl : y.length = 4)
    (hm1 : 1 ≤ natOfDigits m) (hm12 : natOfDigits m ≤ 12)
    (hy1 : 1 ≤ natOfDigits y) (hd1 : 1 ≤ dayVal)
    (hdm : dayVal ≤ daysInMonth (natOfDigits y) (natOfDigits m)) :
    parseTail dayVal ('.' :: (m ++ '.' :: y)) =
      some ⟨natOfDigits y, natOfDigits m, dayVal⟩ := by
  have e2 : splitDigits (m ++ '.' :: y) = (m, '.' :: y) :=
    splitDigits_append_stop m '.' y hm (by decide)
  have e3 : splitDigits y = (y, []) := splitDigits_all y hy
  have hy9999 : natOfDigits y ≤ 9999 := by
    have := natOfDigits_lt y hy
    rw [hyl] at this
    omega
  have hvalid : Date.valid ⟨natOfDigits y, natOfDigits m, dayVal⟩ = true := by
    unfold Date.valid
    simp only [Bool.and_eq_true, decide_eq_true_eq]
    exact ⟨⟨⟨⟨⟨hy1, hy9999⟩, hm1⟩, hm12⟩, hd1⟩, hdm⟩
  unfold parseTail
  rcases hml with hml | hml <;>
    simp [e2, e3, hml, hyl, hm1, hm12, hvalid]

/-- C6 amended: the `Birthday` constructor succeeds if and only if
the string is day.month.year where the day field is one or two digits
or a space followed by a single nonzero digit (CPython's `%d`), the
month is one or two digits, the year exactly four digits, and the
numbers name a real calendar date; "31.02.2020" and "2020.01.01"
still fail, while "1.01.2020" and " 1.01.2020" are accepted. -/
theorem birthday_ok_iff (s : String) :
    (∃ v, mkBirthday s = .ok v) ↔
      (∃ d m y : List Char,
        ((s.data = d ++ '.' :: (m ++ '.' :: y) ∧ (d.length = 1 ∨ d.length = 2)) ∨
          (s.data = ' ' :: (d ++ '.' :: (m ++ '.' :: y)) ∧ d.length = 1)) ∧
        (∀ c ∈ d, c.isDigit = true) ∧ (∀ c ∈ m, c.isDigit = true) ∧
        (∀ c ∈ y, c.isDigit = true) ∧
        (m.length = 1 ∨ m.length = 2) ∧ y.length = 4 ∧
        1 ≤ natOfDigits d ∧ 1 ≤ natOfDigits m ∧ natOfDigits m ≤ 12 ∧
        1 ≤ natOfDigits y ∧
        natOfDigits d ≤ daysInMonth (natOfDigits y) (natOfDigits m)) := by
  constructor
  · rintro ⟨v, hv⟩
    unfold mkBirthday at hv
    split at hv
    · next dt heq =>
      unfold strptime_dmy at heq
      split at heq
      · next hempty =>
        split at heq
        · next c rest heqm =>
          split at heq
          · next hcd =>
            obtain ⟨m, y, hrest, hm, hy, hml, hyl, hm1, hm12, hy1, hd1, hdm, hdt⟩ :=
              parseTail_some _ _ _ heq
            simp only [Bool.and_eq_true, Bool.not_eq_true'] at hcd
            have hnc : natOfDigits [c] = c.toNat - 48 := by simp [natOfDigits]
            refine ⟨[c], m, y, .inr ⟨?_, rfl⟩, ?_, hm, hy, hml, hyl, ?_, hm1, hm12, hy1, ?_⟩
            · have e1 := splitDigits_eq_append s.data
              have hnil : (splitDigits s.data).1 = [] := by simpa using hempty
              rw [hnil] at e1
              simp only [List.nil_append] at e1
              rw [e1, heqm, hrest]
              simp
            · intro x hx
              simp only [List.mem_singleton] at hx
              rw [hx]
              exact hcd.1
            · rw [hnc]
              exact one_le_digit_val c hcd.1 hcd.2
            · rw [hnc]
              exact hdm
          · exact absurd heq (by simp)
        · exact absurd heq (by simp)
      · next hempty =>
        split at heq
        · next hdc =>
          obtain ⟨m, y, hrest, hm, hy, hml, hyl, hm1, hm12, hy1, hd1, hdm, hdt⟩ :=
            parseTail_some _ _ _ heq
          simp only [Bool.and_eq_true, beq_iff_eq, Bool.or_eq_true,
            decide_eq_true_eq] at hdc
          refine ⟨(splitDigits s.data).1, m, y, .inl ⟨?_, hdc.1.1⟩,
            splitDigits_fst_digits _, hm, hy, hml, hyl, hdc.1.2, hm1, hm12, hy1, hdm⟩
          have e1 := splitDigits_eq_append s.data
          rw [hrest] at e1
          exact e1
        · exact absurd heq (by simp)
    · exact absurd hv (by simp)
  · rintro ⟨d, m, y, hform, hd, hm, hy, hml, hyl, hd1, hm1, hm12, hy1, hdm⟩
    have hptc := parseTail_complete (natOfDigits d) m y hm hy hml hyl hm1 hm12 hy1 hd1 hdm
    rcases hform with ⟨hsplit, hdl⟩ | ⟨hsplit, hdl⟩
    · have e1 : splitDigits s.data = (d, '.' :: (m ++ '.' :: y)) := by
        rw [hsplit]
        exact splitDigits_append_stop d '.' _ hd (by decide)
      have hde : d.isEmpty = false := by
        cases d with
        | nil => rcases hdl with h | h <;> simp at h
        | cons a as => rfl
      have h31 : natOfDigits d ≤ 31 :=
        le_trans hdm (daysInMonth_le_31 (natOfDigits y) (natOfDigits m))
      have hst : strptime_dmy s = some ⟨natOfDigits y, natOfDigits m, natOfDigits d⟩ := by
        unfold strptime_dmy
        rw [e1]
        rcases hdl with hdl | hdl <;>
          simp [hde, hdl, hd1, h31, hptc]
      refine ⟨s, ?_⟩
      unfold mkBirthday
      rw [hst]
    · obtain ⟨c, rfl⟩ : ∃ c, d = [c] := by
        cases d with
        | nil => simp at hdl
        | cons a as =>
          cases as with
          | nil => exact ⟨a, rfl⟩
          | cons b bs => simp at hdl
      have hc : c.isDigit = true := hd c (by simp)
      have hnc : natOfDigits [c] = c.toNat - 48 := by simp [natOfDigits]
      have h0 : (c == '0') = false := by
        have hne0 : ¬c = '0' := by
          intro habs
          rw [habs] at hd1
          exact absurd hd1 (by decide)
        simp [hne0]
      have e1 : splitDigits s.data = ([], ' ' :: (c :: '.' :: (m ++ '.' :: y))) := by
        rw [hsplit]
        have := splitDigits_cons_not_digit ' ' ([c] ++ '.' :: (m ++ '.' :: y)) (by decide)
        simpa using this
      have hst : strptime_dmy s =
          some ⟨natOfDigits y, natOfDigits m, natOfDigits [c]⟩ := by
        unfold strptime_dmy
        rw [e1]
        rw [hnc] at hptc
        simp [hc, h0, hptc, hnc]
      refine ⟨s, ?_⟩
      unfold mkBirthday
      rw [hst]

/-- C6 amended witness: the space-padded form " 1.01.2020" decomposes
as required and is accepted. -/
theorem birthday_ok_iff_witness : ∃ v, mkBirthday " 1.01.2020" = .ok v :=
  (birthday_ok_iff " 1.01.2020").mpr
    ⟨['1'], ['0', '1'], ['2', '0', '2', '0'], .inr ⟨by decide, by decide⟩,
      by decide, by decide, by decide, by decide, by decide, by decide,
      by decide, by decide, by decide, by decide⟩

/-- C1: whenever the per-record loop body returns normally for a
record with a parsed birthday, the record is included in the result
exactly when the candidate date — the birthday's month/day in
`today`'s year, rebuilt in `today`'s year + 1 if strictly before
`today` — lies at a whole-day distance in `[0, 7]` from `today`. -/
theorem upcoming_includes_iff_window (today : Date) (r : Record) (bstr : String)
    (bd : Date) (res : Option (String × String))
    (hb : r.birthday = some bstr) (hp : strptime_dmy bstr = some bd)
    (hok : processRecord today r = .ok res) :
    res.isSome = true ↔
      (0 ≤ (toOrdinal (candidate today bd) : Int) - toOrdinal today ∧
        (toOrdinal (candidate today bd) : Int) - toOrdinal today ≤ 7) := by
  unfold processRecord at hok
  simp only [hb, hp] at hok
  unfold replaceYear at hok
  split at hok
  · exact absurd hok (by simp)
  · next c0 heq =>
    have hc0 : c0 = ⟨today.year, bd.month, bd.day⟩ := by
      split at heq
      · simp only [Except.ok.injEq] at heq
        exact heq.symm
      · exact absurd heq (by simp)
    subst hc0
    split at hok
    · exact absurd hok (by simp)
    · next cand heq2 =>
      by_cases hbef : Date.before ⟨today.year, bd.month, bd.day⟩ today = true
      · rw [if_pos hbef] at heq2
        have hcd : candidate today bd = cand := by
          unfold candidate
          rw [if_pos hbef]
          split at heq2
          · simp only [Except.ok.injEq] at heq2
            exact heq2
          · exact absurd heq2 (by simp)
        rw [hcd]
        split at hok
        · next hwin =>
          simp only [Except.ok.injEq] at hok
          subst hok
          simpa using hwin
        · next hwin =>
          simp only [Except.ok.injEq] at hok
          subst hok
          simpa using hwin
      · rw [if_neg hbef] at heq2
        simp only [Except.ok.injEq] at heq2
        have hcd : candidate today bd = cand := by
          unfold candidate
          rw [if_neg hbef]
          exact heq2
        rw [hcd]
        split at hok
        · next hwin =>
          simp only [Except.ok.injEq] at hok
          subst hok
          simpa using hwin
        · next hwin =>
          simp only [Except.ok.injEq] at hok
          subst hok
          simpa using hwin

/-- C1 witness: `today = 31.12.2024`, birthday `02.01.2000`; the
candidate is `02.01.2025`, two days ahead, and the record is
included. -/
theorem upcoming_includes_iff_window_witness :
    (some ("A", "02.01.2025") : Option (String × String)).isSome = true ↔
      (0 ≤ (toOrdinal (candidate ⟨2024, 12, 31⟩ ⟨2000, 1, 2⟩) : Int) - toOrdinal ⟨2024, 12, 31⟩ ∧
        (toOrdinal (candidate ⟨2024, 12, 31⟩ ⟨2000, 1, 2⟩) : Int) - toOrdinal ⟨2024, 12, 31⟩ ≤ 7) :=
  upcoming_includes_iff_window ⟨2024, 12, 31⟩ ⟨"A", [], some "02.01.2000"⟩ "02.01.2000"
    ⟨2000, 1, 2⟩ (some ("A", "02.01.2025")) rfl (by decide) (by decide)

/-- C2: every emitted congratulation date is the candidate date
shifted by 2 days when the candidate falls on a Saturday (Python
weekday 5), by 1 day when on a Sunday (weekday 6), and unshifted
otherwise, rendered with `strftime("%d.%m.%Y")`. -/
theorem congrats_is_shifted_candidate (today : Date) (r : Record) (bstr : String)
    (bd : Date) (nm ds : String)
    (hb : r.birthday = some bstr) (hp : strptime_dmy bstr = some bd)
    (hok : processRecord today r = .ok (some (nm, ds))) :
    nm = r.name ∧
      ds = formatDate
        (if weekday (candidate today bd) = 5 then addDays (candidate today bd) 2
          else if weekday (candidate today bd) = 6 then addDays (candidate today bd) 1
          else candidate today bd) := by
  unfold processRecord at hok
  simp only [hb, hp] at hok
  unfold replaceYear at hok
  split at hok
  · exact absurd hok (by simp)
  · next c0 heq =>
    have hc0 : c0 = ⟨today.year, bd.month, bd.day⟩ := by
      split at heq
      · simp only [Except.ok.injEq] at heq
        exact heq.symm
      · exact absurd heq (by simp)
    subst hc0
    split at hok
    · exact absurd hok (by simp)
    · next cand heq2 =>
      have main : candidate today bd = cand →
          (Except.ok (some (r.name,
              formatDate (if (weekday cand == 5) = true then addDays cand 2
                else if (weekday cand == 6) = true then addDays cand 1 else cand))) =
            (Except.ok (some (nm, ds)) : Except String (Option (String × String)))) →
          nm = r.name ∧
            ds = formatDate
              (if weekday (candidate today bd) = 5 then addDays (candidate today bd) 2
                else if weekday (candidate today bd) = 6 then addDays (candidate today bd) 1
                else candidate today bd) := by
        intro hcd hk
        simp only [Except.ok.injEq, Option.some.injEq, Prod.mk.injEq] at hk
        refine ⟨hk.1.symm, ?_⟩
        rw [← hk.2, hcd]
        simp [beq_iff_eq]
      by_cases hbef : Date.before ⟨today.year, bd.month, bd.day⟩ today = true
      · rw [if_pos hbef] at heq2
        have hcd : candidate today bd = cand := by
          unfold candidate
          rw [if_pos hbef]
          split at heq2
          · simp only [Except.ok.injEq] at heq2
            exact heq2
          · exact absurd heq2 (by simp)
        split at hok
        · next hwin => exact main hcd hok
        · exact absurd hok (by simp)
      · rw [if_neg hbef] at heq2
        simp only [Except.ok.injEq] at heq2
        have hcd : candidate today bd = cand := by
          unfold candidate
          rw [if_neg hbef]
          exact heq2
        split at hok
        · next hwin => exact main hcd hok
        · exact absurd hok (by simp)

/-- C2 witness: `today = 10.06.2024`, birthday `15.06.2024` (a
Saturday): the emitted date is `17.06.2024`. -/
theorem congrats_is_shifted_candidate_witness :
    "A" = "A" ∧
      "17.06.2024" = formatDate
        (if weekday (candidate ⟨2024, 6, 10⟩ ⟨2024, 6, 15⟩) = 5 then
            addDays (candidate ⟨2024, 6, 10⟩ ⟨2024, 6, 15⟩) 2
          else if weekday (candidate ⟨2024, 6, 10⟩ ⟨2024, 6, 15⟩) = 6 then
            addDays (candidate ⟨2024, 6, 10⟩ ⟨2024, 6, 15⟩) 1
          else candidate ⟨2024, 6, 10⟩ ⟨2024, 6, 15⟩) :=
  congrats_is_shifted_candidate ⟨2024, 6, 10⟩ ⟨"A", [], some "15.06.2024"⟩ "15.06.2024"
    ⟨2024, 6, 15⟩ "A" "17.06.2024" rfl (by decide) (by decide)

lemma get_upcoming_error_of_mem (today : Date) (book : AddressBook) (k : String)
    (r : Record) (e : String) (hmem : (k, r) ∈ book)
    (herr : processRecord today r = .error e) :
    ∃ e2, get_upcoming_birthdays book today = .error e2 := by
  induction book with
  | nil => simp at hmem
  | cons hd tl ih =>
    obtain ⟨k2, r2⟩ := hd
    rcases List.mem_cons.mp hmem with hcase | hcase
    · simp only [Prod.mk.injEq] at hcase
      refine ⟨e, ?_⟩
      unfold get_upcoming_birthdays
      rw [← hcase.2] at *
      simp [herr]
    · rcases ih hcase with ⟨e2, he2⟩
      cases hpr : processRecord today r2 with
      | error e3 =>
        refine ⟨e3, ?_⟩
        unfold get_upcoming_birthdays
        simp [hpr]
      | ok o =>
        cases o with
        | none =>
          refine ⟨e2, ?_⟩
          unfold get_upcoming_birthdays
          simp [hpr, he2]
        | some entry =>
          refine ⟨e2, ?_⟩
          unfold get_upcoming_birthdays
          simp [hpr, he2]

/-- C3 amended: a stored birthday of Feb 29 makes the query fail
(`date.replace` raises `ValueError`) whenever `today`'s year is not a
leap year, instead of resolving to a policy date such as Mar 1 or
Feb 28. -/
theorem feb29_in_nonleap_year_errors (today : Date) (book : AddressBook) (k : String)
    (r : Record) (bstr : String) (bd : Date)
    (hleap : isLeap today.year = false)
    (hmem : (k, r) ∈ book) (hb : r.birthday = some bstr)
    (hp : strptime_dmy bstr = some bd) (hm : bd.month = 2) (hdday : bd.day = 29) :
    ∃ e, get_upcoming_birthdays book today = .error e := by
  apply get_upcoming_error_of_mem today book k r "day is out of range for month" hmem
  have hval : (Date.mk today.year bd.month bd.day).valid = false := by
    rw [hm, hdday]
    unfold Date.valid daysInMonth
    simp [hleap]
  simp only [processRecord, hb, hp, replaceYear, hval]
  simp

/-- C3 amended witness: `today = 15.01.2025` (2025 non-leap) and a
record with birthday `29.02.2004` among others: the call fails. -/
theorem feb29_in_nonleap_year_errors_witness :
    ∃ e, get_upcoming_birthdays
        [("B", ⟨"B", ["0123456789"], none⟩), ("A", ⟨"A", [], some "29.02.2004"⟩)]
        ⟨2025, 1, 15⟩ = .error e :=
  feb29_in_nonleap_year_errors ⟨2025, 1, 15⟩
    [("B", ⟨"B", ["0123456789"], none⟩), ("A", ⟨"A", [], some "29.02.2004"⟩)]
    "A" ⟨"A", [], some "29.02.2004"⟩ "29.02.2004" ⟨2004, 2, 29⟩
    (by decide) (by decide) rfl (by decide) rfl rfl

lemma find_phone_eq_none_iff (r : Record) (o : String) :
    find_phone r o = none ↔ ∀ p ∈ r.phones, ¬p = o := by
  unfold find_phone
  simp [List.find?_eq_none]

lemma find_remove_decomp (l : List String) (o p : String)
    (h : l.find? (fun x => x == o) = some p) :
    p = o ∧ ∃ pre post, l = pre ++ p :: post ∧ (∀ x ∈ pre, ¬x = o) ∧
      removeFirst l p = pre ++ post := by
  induction l with
  | nil => simp at h
  | cons a as ih =>
    by_cases ha : a = o
    · have hb : (a == o) = true := by simp [ha]
      rw [List.find?_cons, hb] at h
      have hpa : p = a := by simpa using h.symm
      subst hpa
      refine ⟨ha, [], as, by simp, by simp, ?_⟩
      unfold removeFirst
      simp
    · have hb : (a == o) = false := by simp [ha]
      rw [List.find?_cons, hb] at h
      simp only [cond_false] at h
      rcases ih h with ⟨hpo, pre, post, hsplit, hpre, hrem⟩
      have hap : (a == p) = false := by
        rw [hpo]
        exact hb
      refine ⟨hpo, a :: pre, post, by simp [hsplit], ?_, ?_⟩
      · intro x hx
        rcases List.mem_cons.mp hx with hx | hx
        · rw [hx]; exact ha
        · exact hpre x hx
      · unfold removeFirst
        simp [hap, hrem]

lemma edit_phone_eq_some (r : Record) (o n p : String)
    (hp : find_phone r o = some p) :
    edit_phone r o n =
      if Phone.validate n = true then
        (none, { r with phones := removeFirst r.phones p ++ [n] })
      else (some (.validation "New phone number must contain exactly 10 digits"), r) := by
  unfold edit_phone
  rw [hp]

/-- C4 counterexample: with the old phone present and a new value of
ten superscript-two characters — not a valid 10-digit phone in the
spec's decimal-digit sense — `edit_phone` does not fail with a
`ValidationError`: CPython's `isdigit` accepts superscript digits, so
the edit succeeds and appends the new value. -/
theorem edit_phone_accepts_nondecimal_new :
    edit_phone ⟨"A", ["1111111111"], none⟩ "1111111111" "²²²²²²²²²²" =
      (none, ⟨"A", ["²²²²²²²²²²"], none⟩) ∧
    ¬(∀ c ∈ ("²²²²²²²²²²" : String).data, c.isDigit = true) := by
  refine ⟨by decide, by decide⟩

/-- C4 amended: `edit_phone` fails with the not-found error when no stored
phone equals `old_phone` (leaving the record unchanged); fails with
the validation error when `new_phone` is not a valid 10-digit phone;
otherwise removes the first phone equal to `old_phone` and appends
the new phone at the end of the sequence. -/
theorem edit_phone_spec (r : Record) (o n : String) :
    ((∀ p ∈ r.phones, ¬p = o) →
      edit_phone r o n = (some (Err.notFound ("Phone " ++ o ++ " not found")), r)) ∧
    (o ∈ r.phones → Phone.validate n = false →
      edit_phone r o n =
        (some (Err.validation "New phone number must contain exactly 10 digits"), r)) ∧
    (o ∈ r.phones → Phone.validate n = true →
      ∃ pre post, r.phones = pre ++ o :: post ∧ (∀ x ∈ pre, ¬x = o) ∧
        edit_phone r o n = (none, { r with phones := (pre ++ post) ++ [n] })) := by
  refine ⟨?_, ?_, ?_⟩
  · intro habs
    have hf : find_phone r o = none := (find_phone_eq_none_iff r o).mpr habs
    unfold edit_phone
    rw [hf]
  · intro hmem hval
    have hs : (find_phone r o).isSome = true := by
      unfold find_phone
      rw [List.find?_isSome]
      exact ⟨o, hmem, by simp⟩
    obtain ⟨p, hp⟩ := Option.isSome_iff_exists.mp hs
    rw [edit_phone_eq_some r o n p hp, if_neg (by simp [hval])]
  · intro hmem hval
    have hs : (find_phone r o).isSome = true := by
      unfold find_phone
      rw [List.find?_isSome]
      exact ⟨o, hmem, by simp⟩
    obtain ⟨p, hp⟩ := Option.isSome_iff_exists.mp hs
    obtain ⟨hpo, pre, post, hsplit, hpre, hrem⟩ := find_remove_decomp r.phones o p hp
    subst hpo
    refine ⟨pre, post, hsplit, hpre, ?_⟩
    rw [edit_phone_eq_some r _ n _ hp, if_pos hval, hrem]

/-- C4 witness: a record with phones `["1111111111"]` edited with
`("1111111111", "2222222222")` ends with phones `["2222222222"]`. -/
theorem edit_phone_spec_witness :
    edit_phone ⟨"A", ["1111111111"], none⟩ "1111111111" "2222222222" =
      (none, ⟨"A", ["2222222222"], none⟩) ∧
    ∃ pre post, (["1111111111"] : List String) = pre ++ "1111111111" :: post ∧
      (∀ x ∈ pre, ¬x = "1111111111") ∧
      edit_phone ⟨"A", ["1111111111"], none⟩ "1111111111" "2222222222" =
        (none, { Record.mk "A" ["1111111111"] none with
                  phones := (pre ++ post) ++ ["2222222222"] }) :=
  ⟨by decide,
    (edit_phone_spec ⟨"A", ["1111111111"], none⟩ "1111111111" "2222222222").2.2
      (by decide) (by decide)⟩

/-- C7: no operation mutates state when it fails: each record or book
operation that reports an error returns the state it was given, and
`add_record` never fails at all. -/
theorem no_partial_mutation_on_failure (r : Record) (book : AddressBook)
    (s o n b nm : String) (rec : Record) :
    ((add_phone r s).1.isSome = true → (add_phone r s).2 = r) ∧
    ((remove_phone r s).1.isSome = true → (remove_phone r s).2 = r) ∧
    ((edit_phone r o n).1.isSome = true → (edit_phone r o n).2 = r) ∧
    ((add_birthday r b).1.isSome = true → (add_birthday r b).2 = r) ∧
    (add_record book rec).1 = none ∧
    ((delete book nm).1.isSome = true → (delete book nm).2 = book) := by
  refine ⟨?_, ?_, ?_, ?_, rfl, ?_⟩
  · by_cases hv : Phone.validate s = true <;> simp [add_phone, mkPhone, hv]
  · cases hf : find_phone r s <;> simp [remove_phone, hf]
  · cases hf : find_phone r o with
    | none => simp [edit_phone, hf]
    | some p =>
      by_cases hv : Phone.validate n = true <;> simp [edit_phone, hf, hv]
  · cases hmb : mkBirthday b <;> simp [add_birthday, hmb]
  · by_cases hg : (dictGet book nm).isSome = true <;> simp [delete, hg]

/-- C7 witness: failing instances of each fallible operation leave
the concrete record and book unchanged. -/
theorem no_partial_mutation_on_failure_witness :
    (add_phone ⟨"A", [], none⟩ "12").2 = ⟨"A", [], none⟩ ∧
    (remove_phone ⟨"A", [], none⟩ "12").2 = ⟨"A", [], none⟩ ∧
    (edit_phone ⟨"A", [], none⟩ "12" "2222222222").2 = ⟨"A", [], none⟩ ∧
    (add_birthday ⟨"A", [], none⟩ "31.02.2020").2 = ⟨"A", [], none⟩ ∧
    (delete [] "A").2 = [] :=
  ⟨(no_partial_mutation_on_failure ⟨"A", [], none⟩ [] "12" "12" "2222222222"
      "31.02.2020" "A" ⟨"A", [], none⟩).1 (by decide),
    (no_partial_mutation_on_failure ⟨"A", [], none⟩ [] "12" "12" "2222222222"
      "31.02.2020" "A" ⟨"A", [], none⟩).2.1 (by decide),
    (no_partial_mutation_on_failure ⟨"A", [], none⟩ [] "12" "12" "2222222222"
      "31.02.2020" "A" ⟨"A", [], none⟩).2.2.1 (by decide),
    (no_partial_mutation_on_failure ⟨"A", [], none⟩ [] "12" "12" "2222222222"
      "31.02.2020" "A" ⟨"A", [], none⟩).2.2.2.1 (by decide),
    (no_partial_mutation_on_failure ⟨"A", [], none⟩ [] "12" "12" "2222222222"
      "31.02.2020" "A" ⟨"A", [], none⟩).2.2.2.2.2 (by decide)⟩

lemma mem_dictSet (b : AddressBook) (k : String) (v : Record) (k2 : String) (v2 : Record)
    (h : (k2, v2) ∈ dictSet b k v) : (k2, v2) = (k, v) ∨ (k2, v2) ∈ b := by
  induction b with
  | nil => simpa [dictSet] using h
  | cons hd tl ih =>
    obtain ⟨k3, v3⟩ := hd
    unfold dictSet at h
    by_cases hk : (k3 == k) = true
    · rw [if_pos hk] at h
      rcases List.mem_cons.mp h with h | h
      · exact .inl h
      · exact .inr (List.mem_cons_of_mem _ h)
    · rw [if_neg hk] at h
      rcases List.mem_cons.mp h with h | h
      · exact .inr (by simp [h])
      · rcases ih h with h | h
        · exact .inl h
        · exact .inr (List.mem_cons_of_mem _ h)

lemma mem_dictDel (b : AddressBook) (k : String) (k2 : String) (v2 : Record)
    (h : (k2, v2) ∈ dictDel b k) : (k2, v2) ∈ b := by
  induction b with
  | nil => simp [dictDel] at h
  | cons hd tl ih =>
    obtain ⟨k3, v3⟩ := hd
    unfold dictDel at h
    by_cases hk : (k3 == k) = true
    · rw [if_pos hk] at h
      exact List.mem_cons_of_mem _ h
    · rw [if_neg hk] at h
      rcases List.mem_cons.mp h with h | h
      · simp [h]
      · exact List.mem_cons_of_mem _ (ih h)

lemma dictGet_dictSet_self (b : AddressBook) (k : String) (v : Record) :
    dictGet (dictSet b k v) k = some v := by
  induction b with
  | nil => simp [dictSet, dictGet]
  | cons hd tl ih =>
    obtain ⟨k3, v3⟩ := hd
    by_cases hk : (k3 == k) = true
    · simp [dictSet, hk, dictGet]
    · simp [dictSet, hk, dictGet, ih]

lemma applyOps_keeps_inv (ops : List BookOp) (b : AddressBook)
    (hb : ∀ k r, (k, r) ∈ b → k = r.name) :
    ∀ k r, (k, r) ∈ applyOps b ops → k = r.name := by
  induction ops generalizing b with
  | nil => simpa [applyOps] using hb
  | cons op rest ih =>
    have step : ∀ k r, (k, r) ∈ applyOp b op → k = r.name := by
      intro k r h
      cases op with
      | addRec rec =>
        simp only [applyOp, add_record] at h
        rcases mem_dictSet b rec.name rec k r h with h | h
        · simp only [Prod.mk.injEq] at h
          rw [h.1, h.2]
        · exact hb k r h
      | delRec nm =>
        by_cases hg : (dictGet b nm).isSome = true
        · simp only [applyOp, delete, hg, if_true] at h
          exact hb k r (mem_dictDel b nm k r h)
        · simp only [applyOp, delete, hg, if_false] at h
          exact hb k r (by simpa using h)
    have hfold : applyOps b (op :: rest) = applyOps (applyOp b op) rest := by
      simp [applyOps]
    rw [hfold]
    exact ih (applyOp b op) step

/-- C8: starting from the empty book, any sequence of `add_record`
and `delete` operations preserves the invariant that every key of the
mapping equals the `name` of its record; and `add_record` inserts or
overwrites under `record.name` (last write wins). -/
theorem book_keys_match_names (ops : List BookOp) :
    (∀ k r, (k, r) ∈ applyOps [] ops → k = r.name) ∧
    (∀ (book : AddressBook) (rec : Record),
      dictGet (add_record book rec).2 rec.name = some rec) := by
  constructor
  · exact applyOps_keeps_inv ops [] (by simp)
  · intro book rec
    simpa [add_record] using dictGet_dictSet_self book rec.name rec

/-- C8 witness: a concrete add/overwrite/delete sequence keeps keys
equal to record names, and an overwriting `add_record` wins. -/
theorem book_keys_match_names_witness :
    "A" = (Record.mk "A" ["1234567890"] none).name ∧
    dictGet (add_record [("A", ⟨"A", [], none⟩)] ⟨"A", ["1234567890"], none⟩).2 "A" =
      some ⟨"A", ["1234567890"], none⟩ :=
  ⟨(book_keys_match_names
      [.addRec ⟨"B", [], none⟩, .addRec ⟨"A", ["1234567890"], none⟩,
        .delRec "B"]).1 "A" ⟨"A", ["1234567890"], none⟩ (by decide),
    (book_keys_match_names []).2 [("A", ⟨"A", [], none⟩)] ⟨"A", ["1234567890"], none⟩⟩

lemma dictGet_eq_none_of_not_mem_keys (b : AddressBook) (k : String)
    (h : k ∉ b.map Prod.fst) : dictGet b k = none := by
  induction b with
  | nil => rfl
  | cons hd tl ih =>
    obtain ⟨k3, v3⟩ := hd
    simp only [List.map_cons, List.mem_cons, not_or] at h
    have hk : (k3 == k) = false := by
      simp [Ne.symm h.1]
    unfold dictGet
    rw [if_neg (by simp [hk])]
    exact ih h.2

lemma dictGet_dictDel_self (b : AddressBook) (k : String)
    (hnd : (b.map Prod.fst).Nodup) : dictGet (dictDel b k) k = none := by
  induction b with
  | nil => rfl
  | cons hd tl ih =>
    obtain ⟨k3, v3⟩ := hd
    simp only [List.map_cons, List.nodup_cons] at hnd
    by_cases hk : (k3 == k) = true
    · have hk3 : k3 = k := by simpa using hk
      rw [dictDel, if_pos hk]
      exact dictGet_eq_none_of_not_mem_keys tl k (hk3 ▸ hnd.1)
    · rw [dictDel, if_neg hk, dictGet, if_neg hk]
      exact ih hnd.2

lemma dictGet_dictDel_ne (b : AddressBook) (k k2 : String) (hne : k2 ≠ k) :
    dictGet (dictDel b k) k2 = dictGet b k2 := by
  induction b with
  | nil => rfl
  | cons hd tl ih =>
    obtain ⟨k3, v3⟩ := hd
    by_cases hk : (k3 == k) = true
    · have hk3 : k3 = k := by simpa using hk
      have hne2 : (k3 == k2) = false := by simp [hk3, Ne.symm hne]
      rw [dictDel, if_pos hk, dictGet, if_neg (by simp [hne2])]
    · rw [dictDel, if_neg hk]
      by_cases hk2 : (k3 == k2) = true
      · rw [dictGet, if_pos hk2, dictGet, if_pos hk2]
      · rw [dictGet, if_neg hk2, dictGet, if_neg hk2, ih]

lemma dictDel_length (b : AddressBook) (k : String)
    (h : (dictGet b k).isSome = true) :
    (dictDel b k).length + 1 = b.length := by
  induction b with
  | nil => simp [dictGet] at h
  | cons hd tl ih =>
    obtain ⟨k3, v3⟩ := hd
    by_cases hk : (k3 == k) = true
    · unfold dictDel
      rw [if_pos hk]
      simp
    · have h2 : (dictGet tl k).isSome = true := by
        unfold dictGet at h
        rwa [if_neg hk] at h
      unfold dictDel
      rw [if_neg hk]
      simp only [List.length_cons]
      rw [← ih h2]

/-- C9: `delete` on an absent key fails with the not-found error and
leaves the book unchanged; on a present key it succeeds, removes that
entry (the key no longer resolves, the size drops by one) and leaves
the entry of every other key untouched. -/
theorem delete_exact_frame (book : AddressBook) (nm : String)
    (hnd : (book.map Prod.fst).Nodup) :
    (dictGet book nm = none →
      delete book nm = (some (Err.notFound ("Contact " ++ nm ++ " not found")), book)) ∧
    (∀ r, dictGet book nm = some r →
      (delete book nm).1 = none ∧
      dictGet (delete book nm).2 nm = none ∧
      (∀ k, k ≠ nm → dictGet (delete book nm).2 k = dictGet book k) ∧
      (delete book nm).2.length + 1 = book.length) := by
  constructor
  · intro h
    unfold delete
    rw [h]
    simp
  · intro r h
    have hs : (dictGet book nm).isSome = true := by simp [h]
    unfold delete
    rw [if_pos hs]
    exact ⟨rfl, dictGet_dictDel_self book nm hnd,
      fun k hk => dictGet_dictDel_ne book nm k hk,
      dictDel_length book nm hs⟩

/-- C9 witness: deleting "A" from a two-entry book leaves "B"'s entry
untouched. -/
theorem delete_exact_frame_witness :
    dictGet (delete [("A", ⟨"A", [], none⟩), ("B", ⟨"B", [], none⟩)] "A").2 "B" =
      dictGet [("A", ⟨"A", [], none⟩), ("B", ⟨"B", [], none⟩)] "B" :=
  ((delete_exact_frame [("A", ⟨"A", [], none⟩), ("B", ⟨"B", [], none⟩)] "A"
      (by decide)).2 ⟨"A", [], none⟩ (by decide)).2.2.1 "B" (by decide)

end Bot
